import Mathlib

/-!
Verification of the VibeList AI repository against its specification.

Two subsystems are embedded:

* The vibe-to-track semantic retrieval engine of the spec (§4 of the spec).
  The repository's `src/app.py` contains only the generative-LLM strategy;
  the retrieval engine (encoder, vector index, recommendation engine,
  snapshot loading) is not present under `src/`, so it is modelled from the
  spec's algorithm, marked `Modelled from the spec:` below.

* The code of `src/app.py` that is present: the verified-song-list
  generation loop (`generate_verified_song_list`), the playlist chunking of
  `create_spotify_playlist`, and `sanitize_for_spotify`.  These are
  translated directly from the source.  External effects (the LLM, the
  Spotify client) are modelled as an environment of response functions, so
  every theorem about the loop is quantified over all possible responses of
  the collaborators.
-/

namespace VibeList

/-! ## Part 1: the semantic retrieval engine, modelled from the spec -/

/-- Modelled from the spec: a Track Record of the Catalog Store (§3): an
opaque stable identifier, plus display strings. -/
structure Track where
  id : String
  name : String
  artist : String
deriving DecidableEq, Repr

/-- Modelled from the spec: the fixed oversampling safety margin of §4.3
step 2 ("a fixed safety constant (empirically 30–50)"); 40 is used here. -/
def margin : ℕ := 40

/-- Modelled from the spec: squared L2 distance between two embedding
vectors (the spec leaves the metric open; §9 requires one fixed metric,
and squared L2 over the stored vectors is used throughout this model). -/
def sqDist (u v : List ℚ) : ℚ :=
  ((List.zipWith (fun a b => (a - b) * (a - b)) u v).foldl (· + ·) 0)

/-- Modelled from the spec: the Vector Index `search` contract of §4.2:
`search(query_vector, k)` returns an ordered sequence of
`(row_position, distance)` pairs, ascending distance, of length
`min k (catalog size)` — at most `k`, and at most the catalog size. -/
def indexSearch (vecs : List (List ℚ)) (q : List ℚ) (k : ℕ) : List (ℕ × ℚ) :=
  (List.insertionSort (fun a b => a.2 ≤ b.2)
    ((vecs.enum).map (fun p => (p.1, sqDist q p.2)))).take k

/-- Modelled from the spec: a loaded catalog/index snapshot.  The row
alignment invariant of §3 ("positional alignment is load-bearing") is part
of the structure: it is established once by `loadSnapshot` and holds for
the lifetime of the value. -/
structure Snapshot where
  tracks : List Track
  vecs : List (List ℚ)
  aligned : tracks.length = vecs.length

/-- Modelled from the spec: startup loading of the two co-located
artifacts (§6): the tabular Track Record file and the serialized index.
Row counts must match, otherwise loading fails fast with a configuration
error (§4.2, §7). -/
def loadSnapshot (tracks : List Track) (vecs : List (List ℚ)) :
    Except String Snapshot :=
  if h : tracks.length = vecs.length then
    .ok ⟨tracks, vecs, h⟩
  else
    .error "configuration error: index and catalog row counts differ"

/-- Modelled from the spec: the Recommendation Engine's core algorithm
(§4.3), instrumented with the list of `k` values sent to the Vector Index
(one entry per index query issued):
1. encode the vibe text;
2. oversampled candidate count `k = count + |exclusion_set| + margin`;
3. query the index for the top `k` neighbors;
4. map row positions to Track Records via the Catalog Store;
5. filter out excluded identifiers;
6. truncate to the first `count` entries;
7. return the (possibly short, possibly empty) result. -/
def recommendTrace (encode : String → List ℚ) (snap : Snapshot)
    (vibe : String) (exclusionSet : Finset String) (count : ℕ) :
    List Track × List ℕ :=
  let q := encode vibe
  let k := count + exclusionSet.card + margin
  let hits := indexSearch snap.vecs q k
  let cands := hits.filterMap (fun h => snap.tracks.get? h.1)
  let filtered := cands.filter (fun t => t.id ∉ exclusionSet)
  (filtered.take count, [k])

/-- Modelled from the spec: `recommend(vibe_text, exclusion_set, count)`
of §4.3 — the result component of `recommendTrace`. -/
def recommend (encode : String → List ℚ) (snap : Snapshot) (vibe : String)
    (exclusionSet : Finset String) (count : ℕ) : List Track :=
  (recommendTrace encode snap vibe exclusionSet count).1

/-- Modelled from the spec: the serving path.  A recommendation request is
only served from a successfully loaded snapshot; in the configuration
error state no request is served (§7). -/
def serve (loaded : Except String Snapshot) (encode : String → List ℚ)
    (vibe : String) (exclusionSet : Finset String) (count : ℕ) :
    Option (List Track) :=
  match loaded with
  | .ok snap => some (recommend encode snap vibe exclusionSet count)
  | .error _ => none

/-! ### Helper lemmas about `indexSearch` -/

/-- The row positions returned by the full (untruncated) sort are a
permutation of `range vecs.length`. -/
lemma sorted_base_fst_perm (vecs : List (List ℚ)) (q : List ℚ) :
    List.Perm
      ((List.insertionSort (fun a b : ℕ × ℚ => a.2 ≤ b.2)
        ((vecs.enum).map (fun p => (p.1, sqDist q p.2)))).map Prod.fst)
      (List.range vecs.length) := by
  have h1 := (List.perm_insertionSort (fun a b : ℕ × ℚ => a.2 ≤ b.2)
    ((vecs.enum).map (fun p => (p.1, sqDist q p.2)))).map Prod.fst
  have h2 : ((vecs.enum).map (fun p : ℕ × List ℚ => (p.1, sqDist q p.2))).map Prod.fst
      = List.range vecs.length := by
    rw [List.map_map]
    have h3 : (Prod.fst ∘ fun p : ℕ × List ℚ => (p.1, sqDist q p.2)) = Prod.fst := rfl
    rw [h3, List.enum_map_fst]
  rw [h2] at h1
  exact h1

/-- The row positions of the search hits form a duplicate-free list. -/
lemma indexSearch_fst_nodup (vecs : List (List ℚ)) (q : List ℚ) (k : ℕ) :
    ((indexSearch vecs q k).map Prod.fst).Nodup := by
  have hperm := sorted_base_fst_perm vecs q
  have hnd : ((List.insertionSort (fun a b : ℕ × ℚ => a.2 ≤ b.2)
      ((vecs.enum).map (fun p => (p.1, sqDist q p.2)))).map Prod.fst).Nodup :=
    hperm.nodup_iff.mpr (List.nodup_range _)
  have hsub : ((indexSearch vecs q k).map Prod.fst).Sublist
      ((List.insertionSort (fun a b : ℕ × ℚ => a.2 ≤ b.2)
        ((vecs.enum).map (fun p => (p.1, sqDist q p.2)))).map Prod.fst) := by
    unfold indexSearch
    rw [List.map_take]
    exact List.take_sublist _ _
  exact hnd.sublist hsub

/-- Every row position returned by the search is a valid row of the index. -/
lemma indexSearch_fst_lt (vecs : List (List ℚ)) (q : List ℚ) (k : ℕ) :
    ∀ h ∈ indexSearch vecs q k, h.1 < vecs.length := by
  intro h hmem
  have hmem' : h.1 ∈ ((indexSearch vecs q k).map Prod.fst) :=
    List.mem_map_of_mem Prod.fst hmem
  have hsub : ((indexSearch vecs q k).map Prod.fst).Sublist
      ((List.insertionSort (fun a b : ℕ × ℚ => a.2 ≤ b.2)
        ((vecs.enum).map (fun p => (p.1, sqDist q p.2)))).map Prod.fst) := by
    unfold indexSearch
    rw [List.map_take]
    exact List.take_sublist _ _
  have hmem2 := hsub.mem hmem'
  have hperm := sorted_base_fst_perm vecs q
  have : h.1 ∈ List.range vecs.length := hperm.mem_iff.mp hmem2
  exact List.mem_range.mp this

/-- The search returns exactly `min k (number of index rows)` hits. -/
lemma indexSearch_length (vecs : List (List ℚ)) (q : List ℚ) (k : ℕ) :
    (indexSearch vecs q k).length = min k vecs.length := by
  unfold indexSearch
  rw [List.length_take]
  have h1 := (List.perm_insertionSort (fun a b : ℕ × ℚ => a.2 ≤ b.2)
    ((vecs.enum).map (fun p => (p.1, sqDist q p.2)))).length_eq
  rw [h1, List.length_map, List.enum_length]

/-! ### Helper lemmas about position-to-track lookup and filtering -/

/-- Looking up in-range positions never drops an entry. -/
lemma filterMap_get_length (tracks : List Track) :
    ∀ hs : List (ℕ × ℚ), (∀ h ∈ hs, h.1 < tracks.length) →
      (hs.filterMap (fun h => tracks.get? h.1)).length = hs.length := by
  intro hs
  induction hs with
  | nil => intro _; rfl
  | cons h hs ih =>
    intro hall
    have hlt : h.1 < tracks.length := hall h (List.mem_cons_self _ _)
    have hsome : tracks.get? h.1 = some (tracks.get ⟨h.1, hlt⟩) :=
      List.get?_eq_get hlt
    rw [List.filterMap_cons, hsome]
    simp only [List.length_cons]
    rw [ih (fun x hx => hall x (List.mem_cons_of_mem _ hx))]

/-- If the catalog's identifiers are duplicate-free and the looked-up
positions are duplicate-free, the identifiers of the looked-up tracks are
duplicate-free. -/
lemma filterMap_get_id_nodup (tracks : List Track)
    (htr : (tracks.map Track.id).Nodup) :
    ∀ hs : List (ℕ × ℚ), (∀ h ∈ hs, h.1 < tracks.length) →
      (hs.map Prod.fst).Nodup →
      ((hs.filterMap (fun h => tracks.get? h.1)).map Track.id).Nodup := by
  intro hs
  induction hs with
  | nil => intro _ _; simp
  | cons h hs ih =>
    intro hall hnd
    have hlt : h.1 < tracks.length := hall h (List.mem_cons_self _ _)
    have hsome : tracks.get? h.1 = some (tracks.get ⟨h.1, hlt⟩) :=
      List.get?_eq_get hlt
    rw [List.filterMap_cons, hsome]
    rw [List.map_cons, List.nodup_cons]
    constructor
    · intro hmem
      obtain ⟨t, htmem, htid⟩ := List.mem_map.mp hmem
      obtain ⟨p, hpmem, hpget⟩ := List.mem_filterMap.mp htmem
      have hplt : p.1 < tracks.length := hall p (List.mem_cons_of_mem _ hpmem)
      have hpt : tracks.get ⟨p.1, hplt⟩ = t := by
        have := List.get?_eq_get hplt
        rw [this] at hpget
        exact Option.some.inj hpget
      have hne : h.1 ≠ p.1 := by
        intro hEq
        have hfst : h.1 ∈ hs.map Prod.fst := by
          rw [hEq]
          exact List.mem_map_of_mem Prod.fst hpmem
        rw [List.map_cons, List.nodup_cons] at hnd
        exact hnd.1 hfst
      have hlt' : h.1 < (tracks.map Track.id).length := by
        rw [List.length_map]; exact hlt
      have hplt' : p.1 < (tracks.map Track.id).length := by
        rw [List.length_map]; exact hplt
      have hidEq : (tracks.map Track.id)[h.1] = (tracks.map Track.id)[p.1] := by
        rw [List.getElem_map, List.getElem_map]
        have e1 : tracks[h.1] = tracks.get ⟨h.1, hlt⟩ := rfl
        have e2 : tracks[p.1] = tracks.get ⟨p.1, hplt⟩ := rfl
        rw [e1, e2, hpt, htid]
      exact hne ((htr.getElem_inj_iff).mp hidEq)
    · exact ih (fun x hx => hall x (List.mem_cons_of_mem _ hx))
        (by rw [List.map_cons, List.nodup_cons] at hnd; exact hnd.2)

/-- Exclusion filtering removes at most `exclusionSet.card` tracks from a
list with duplicate-free identifiers. -/
lemma filter_excl_length (exclusionSet : Finset String) (cs : List Track)
    (hnd : (cs.map Track.id).Nodup) :
    cs.length ≤ (cs.filter (fun t => t.id ∉ exclusionSet)).length
      + exclusionSet.card := by
  have hperm := List.filter_append_perm (fun t => decide (t.id ∉ exclusionSet)) cs
  have hlen : (cs.filter (fun t => t.id ∉ exclusionSet)).length
      + (cs.filter (fun t => !decide (t.id ∉ exclusionSet))).length = cs.length := by
    have := hperm.length_eq
    rw [List.length_append] at this
    exact this
  have hdrop : (cs.filter (fun t => !decide (t.id ∉ exclusionSet))).length
      ≤ exclusionSet.card := by
    set ds := cs.filter (fun t => !decide (t.id ∉ exclusionSet)) with hds
    have hsub : ds.Sublist cs := List.filter_sublist cs
    have hndds : (ds.map Track.id).Nodup := hnd.sublist (hsub.map Track.id)
    have hmem : ∀ x ∈ ds.map Track.id, x ∈ exclusionSet := by
      intro x hx
      obtain ⟨t, htmem, htid⟩ := List.mem_map.mp hx
      have := List.of_mem_filter htmem
      simp only [Bool.not_eq_true', decide_eq_false_iff_not, Decidable.not_not] at this
      rw [← htid]
      exact this
    have hfsub : (ds.map Track.id).toFinset ⊆ exclusionSet := by
      intro x hx
      exact hmem x (List.mem_toFinset.mp hx)
    have hcard : (ds.map Track.id).toFinset.card = (ds.map Track.id).length :=
      List.toFinset_card_of_nodup hndds
    have := Finset.card_le_card hfsub
    rw [hcard, List.length_map] at this
    exact this
  omega

/-- Unfolding equation for `recommend`. -/
lemma recommend_eq (encode : String → List ℚ) (snap : Snapshot) (vibe : String)
    (exclusionSet : Finset String) (count : ℕ) :
    recommend encode snap vibe exclusionSet count =
      (((indexSearch snap.vecs (encode vibe)
        (count + exclusionSet.card + margin)).filterMap
          (fun h => snap.tracks.get? h.1)).filter
            (fun t => t.id ∉ exclusionSet)).take count := rfl

/-! ### Claim theorems for the retrieval engine -/

/-- C1: for every call to the recommendation operation with a vibe text, an
exclusion set, and a count, no identifier of any track in the returned
result sequence is a member of the supplied exclusion set — for every
exclusion set, including one covering the entire catalog. -/
theorem claim_C1_exclusion_respected (encode : String → List ℚ)
    (snap : Snapshot) (vibe : String) (exclusionSet : Finset String)
    (count : ℕ) (t : Track)
    (ht : t ∈ recommend encode snap vibe exclusionSet count) :
    t.id ∉ exclusionSet := by
  rw [recommend_eq] at ht
  have h1 := List.mem_of_mem_take ht
  have h2 := (List.mem_filter.mp h1).2
  simpa using h2

/-- Witness for C1 at a concrete snapshot and exclusion set. -/
theorem claim_C1_witness :
    (Track.mk "trk1" "song" "artist").id ∉ ({"other"} : Finset String) :=
  claim_C1_exclusion_respected (fun _ => [])
    ⟨[⟨"trk1", "song", "artist"⟩], [[]], rfl⟩ "v" {"other"} 1
    ⟨"trk1", "song", "artist"⟩ (by decide)

/-- C2: the result length is at most the requested count, and — given the
catalog invariant that identifiers are unique (§3) — the result length
equals the requested count whenever the catalog size minus the
exclusion-set size is at least the requested count. -/
theorem claim_C2_count_bound (encode : String → List ℚ) (snap : Snapshot)
    (vibe : String) (exclusionSet : Finset String) (count : ℕ) :
    (recommend encode snap vibe exclusionSet count).length ≤ count ∧
    ((snap.tracks.map Track.id).Nodup →
      count + exclusionSet.card ≤ snap.tracks.length →
      (recommend encode snap vibe exclusionSet count).length = count) := by
  constructor
  · rw [recommend_eq, List.length_take]
    exact min_le_left _ _
  · intro hnd hge
    have hn : snap.vecs.length = snap.tracks.length := snap.aligned.symm
    have hall : ∀ h ∈ indexSearch snap.vecs (encode vibe)
        (count + exclusionSet.card + margin), h.1 < snap.tracks.length := by
      intro h hm
      rw [← hn]
      exact indexSearch_fst_lt _ _ _ h hm
    have hhl : (indexSearch snap.vecs (encode vibe)
        (count + exclusionSet.card + margin)).length =
        min (count + exclusionSet.card + margin) snap.vecs.length :=
      indexSearch_length _ _ _
    have hcl : ((indexSearch snap.vecs (encode vibe)
        (count + exclusionSet.card + margin)).filterMap
          (fun h => snap.tracks.get? h.1)).length =
        (indexSearch snap.vecs (encode vibe)
          (count + exclusionSet.card + margin)).length :=
      filterMap_get_length _ _ hall
    have hcnd : (((indexSearch snap.vecs (encode vibe)
        (count + exclusionSet.card + margin)).filterMap
          (fun h => snap.tracks.get? h.1)).map Track.id).Nodup :=
      filterMap_get_id_nodup _ hnd _ hall (indexSearch_fst_nodup _ _ _)
    have hfl := filter_excl_length exclusionSet
      ((indexSearch snap.vecs (encode vibe)
        (count + exclusionSet.card + margin)).filterMap
          (fun h => snap.tracks.get? h.1)) hcnd
    rw [recommend_eq, List.length_take]
    omega

/-- Witness for C2 at a concrete two-track catalog with one excluded id:
exactly the requested one track is returned. -/
theorem claim_C2_witness :
    (recommend (fun _ => [])
      ⟨[⟨"a", "n1", "r1"⟩, ⟨"b", "n2", "r2"⟩], [[], []], rfl⟩
      "v" {"a"} 1).length = 1 :=
  (claim_C2_count_bound (fun _ => [])
    ⟨[⟨"a", "n1", "r1"⟩, ⟨"b", "n2", "r2"⟩], [[], []], rfl⟩
    "v" {"a"} 1).2 (by decide) (by decide)

/-- C5: for a fixed catalog/index snapshot (and encoder), two calls to the
recommendation operation with the same vibe text, the same exclusion set,
and the same count return identical ordered result sequences. -/
theorem claim_C5_determinism (encode : String → List ℚ) (snap : Snapshot)
    (vibe1 vibe2 : String) (excl1 excl2 : Finset String) (count1 count2 : ℕ)
    (hv : vibe1 = vibe2) (he : excl1 = excl2) (hc : count1 = count2) :
    recommend encode snap vibe1 excl1 count1 =
      recommend encode snap vibe2 excl2 count2 := by
  subst hv
  subst he
  subst hc
  rfl

/-- Witness for C5 at a concrete snapshot. -/
theorem claim_C5_witness :
    recommend (fun _ => []) ⟨[⟨"a", "n", "r"⟩], [[]], rfl⟩ "v" ∅ 1 =
      recommend (fun _ => []) ⟨[⟨"a", "n", "r"⟩], [[]], rfl⟩ "v" ∅ 1 :=
  claim_C5_determinism (fun _ => []) ⟨[⟨"a", "n", "r"⟩], [[]], rfl⟩
    "v" "v" ∅ ∅ 1 1 rfl rfl rfl

/-- C6: if the row count of the vector index differs from the row count of
the catalog store, the load fails fast with a configuration error, and no
recommendation request is served in that state. -/
theorem claim_C6_row_alignment (tracks : List Track) (vecs : List (List ℚ))
    (hmis : tracks.length ≠ vecs.length) :
    (loadSnapshot tracks vecs).isOk = false ∧
    ∀ (encode : String → List ℚ) (vibe : String)
      (exclusionSet : Finset String) (count : ℕ),
      serve (loadSnapshot tracks vecs) encode vibe exclusionSet count
        = none := by
  have hload : loadSnapshot tracks vecs =
      .error "configuration error: index and catalog row counts differ" := by
    unfold loadSnapshot
    rw [dif_neg hmis]
  constructor
  · rw [hload]
    rfl
  · intro encode vibe exclusionSet count
    rw [hload]
    rfl

/-- Witness for C6 at a concrete misaligned pair: one catalog row, zero
index rows. -/
theorem claim_C6_witness :
    (loadSnapshot [⟨"a", "n", "r"⟩] []).isOk = false ∧
    serve (loadSnapshot [⟨"a", "n", "r"⟩] []) (fun _ => []) "v" ∅ 1
      = none :=
  ⟨(claim_C6_row_alignment [⟨"a", "n", "r"⟩] [] (by decide)).1,
    (claim_C6_row_alignment [⟨"a", "n", "r"⟩] [] (by decide)).2
      (fun _ => []) "v" ∅ 1⟩

/-- C7: on every call to the recommendation operation, the candidate count
requested from the vector index equals the requested count plus the size
of the exclusion set plus the fixed margin constant, and exactly one index
query is issued per call (the query trace is a one-element list). -/
theorem claim_C7_single_oversampled_query (encode : String → List ℚ)
    (snap : Snapshot) (vibe : String) (exclusionSet : Finset String)
    (count : ℕ) :
    (recommendTrace encode snap vibe exclusionSet count).2 =
      [count + exclusionSet.card + margin] := rfl

/-! ## Part 2: the code present in `src/app.py`

The generation loop `generate_verified_song_list` orchestrates two
external collaborators (the LLM and the Spotify client).  Their responses
are modelled by an `Env` of response functions, indexed by the attempt
number (so any sequence of responses the real services could produce is
representable) and given the same arguments the Python call sites pass. -/

/-- An artist/track suggestion, as produced by `get_next_song_suggestion`
and `get_clarification_from_llm` (a parsed JSON object with keys
`artist` and `track`). -/
structure Suggestion where
  artist : String
  track : String
deriving DecidableEq, Repr

/-- The fields of a verified track kept by `generate_verified_song_list`:
`uri`, `track` (name) and (primary) `artist`, taken from the Spotify
track data. -/
structure VerifiedTrack where
  uri : String
  track : String
  artist : String
deriving DecidableEq, Repr

/-- Outcome of one call to `verify_song_on_spotify`, as observed by the
caller: the three statuses of the 3-tier logic, plus `raised` for an
exception escaping the Spotify call (caught by the `except` block of the
loop body). -/
inductive VerifyOutcome where
  | found (v : VerifiedTrack)
  | needsClarification (options : List Suggestion)
  | notFound
  | raised
deriving DecidableEq, Repr

/-- The external collaborators of `generate_verified_song_list`, as
response functions.  Each is indexed by the attempt number and receives
the arguments the Python code passes at the corresponding call site:
`suggest` models `get_next_song_suggestion(vibe, found_songs_info,
rejected_suggestions)` (`none` = the LLM call failed or the JSON lacked a
usable suggestion), `verifyFirst` models the first
`verify_song_on_spotify` call of the attempt, `clarify` models
`get_clarification_from_llm(suggestion, options)` (`none` = the LLM
answered "None" or failed), and `verifySecond` models the final
`verify_song_on_spotify` call on the clarified suggestion. -/
structure Env where
  suggest : ℕ → String → List Suggestion → List String → Option Suggestion
  verifyFirst : ℕ → Suggestion → VerifyOutcome
  clarify : ℕ → Suggestion → List Suggestion → Option Suggestion
  verifySecond : ℕ → Suggestion → VerifyOutcome

/-- The loop state of `generate_verified_song_list`: the accumulators
`verified_tracks` and `rejected_suggestions`. -/
structure GenState where
  verified : List VerifiedTrack
  rejected : List String
deriving DecidableEq, Repr

/-- One iteration of the `for attempt in range(max_attempts)` body of
`generate_verified_song_list` (the part after the break check):
ask for a suggestion; skip it if absent, field-less, or already rejected;
otherwise verify it, with the clarification sub-flow on a near miss, and
extend `verified` or `rejected` accordingly.  An exception inside the
`try` block is caught and records the suggestion as rejected. -/
def attemptBody (env : Env) (vibe : String) (a : ℕ) (st : GenState) :
    GenState :=
  match env.suggest a vibe
      (st.verified.map (fun t => Suggestion.mk t.artist t.track))
      st.rejected with
  | none => st
  | some s =>
    if s.track = "" ∨ s.artist = "" then st
    else
      if (s.track ++ " by " ++ s.artist) ∈ st.rejected then st
      else
        match env.verifyFirst a s with
        | .found v => { st with verified := st.verified ++ [v] }
        | .needsClarification options =>
          match env.clarify a s options with
          | some c =>
            match env.verifySecond a c with
            | .found v => { st with verified := st.verified ++ [v] }
            | _ => { st with
                rejected := st.rejected ++ [s.track ++ " by " ++ s.artist] }
          | none => { st with
              rejected := st.rejected ++ [s.track ++ " by " ++ s.artist] }
        | .notFound => { st with
            rejected := st.rejected ++ [s.track ++ " by " ++ s.artist] }
        | .raised => { st with
            rejected := st.rejected ++ [s.track ++ " by " ++ s.artist] }

/-- The `for attempt in range(max_attempts)` loop of
`generate_verified_song_list`, with `fuel` the number of remaining
attempts and `a` the current attempt index.  Returns the final state and
the number of loop iterations whose body actually ran (the loop breaks as
soon as `numSongs` tracks are verified). -/
def runAttempts (env : Env) (vibe : String) (numSongs : ℕ) :
    ℕ → ℕ → GenState → GenState × ℕ
  | 0, _, st => (st, 0)
  | fuel + 1, a, st =>
    if st.verified.length ≥ numSongs then (st, 0)
    else
      let r := runAttempts env vibe numSongs fuel (a + 1)
        (attemptBody env vibe a st)
      (r.1, r.2 + 1)

/-- `generate_verified_song_list(vibe, sp_client, num_songs)`: run the
loop with `max_attempts = num_songs * 4` from the empty state and return
the URIs of the verified tracks. -/
def generate_verified_song_list (env : Env) (vibe : String)
    (numSongs : ℕ) : List String :=
  ((runAttempts env vibe numSongs (numSongs * 4) 0 ⟨[], []⟩).1.verified).map
    (fun t => t.uri)

/-- The environment in which every Spotify verification fails: no
suggestion is ever verified. -/
def allNotFoundEnv : Env :=
  ⟨fun _ _ _ _ => some ⟨"a", "t"⟩, fun _ _ => .notFound,
    fun _ _ _ => none, fun _ _ => .notFound⟩

/-! ### `sanitize_for_spotify`, over strings as lists of characters -/

/-- The whitespace class of Python's `\s` (ASCII range): space, tab,
newline, carriage return, vertical tab, form feed. -/
def isPySpace (c : Char) : Bool :=
  c = ' ' || c = '\t' || c = '\n' || c = '\r' || c = '\x0b' || c = '\x0c'

/-- The substitution `re.sub(r'\s+', ' ', s)`: every maximal run of
whitespace characters is replaced by a single space.  The boolean flag
records whether the previous character belonged to a whitespace run whose
replacement space has already been emitted. -/
def collapseGo (prevSpace : Bool) : List Char → List Char
  | [] => []
  | c :: rest =>
    if isPySpace c then
      if prevSpace then collapseGo true rest
      else ' ' :: collapseGo true rest
    else c :: collapseGo false rest

/-- `re.sub(r'\s+', ' ', s)` on a whole string. -/
def collapseWS (s : List Char) : List Char :=
  collapseGo false s

/-- Python's `str.strip()`: remove leading and trailing whitespace. -/
def stripWS (s : List Char) : List Char :=
  (((s.dropWhile isPySpace).reverse).dropWhile isPySpace).reverse

/-- `sanitize_for_spotify(input_string)`: empty (falsy) input maps to the
empty string; otherwise collapse whitespace runs, then strip. -/
def sanitize_for_spotify (s : List Char) : List Char :=
  if s = [] then [] else stripWS (collapseWS s)

/-! ### The chunking loop of `create_spotify_playlist` -/

/-- The `for i in range(0, len(track_uris), chunk_size)` loop of
`create_spotify_playlist` with `chunk_size = 100`: the successive slices
`track_uris[i:i+100]` passed to `playlist_add_items`, one list entry per
call.  `fuel` bounds the recursion by the length of the remaining list. -/
def chunkGo : ℕ → List String → List (List String)
  | 0, _ => []
  | fuel + 1, uris =>
    if uris.isEmpty then [] else uris.take 100 :: chunkGo fuel (uris.drop 100)

/-- The sequence of chunks `create_spotify_playlist` passes to
`playlist_add_items`, in order. -/
def create_spotify_playlist_chunks (trackUris : List String) :
    List (List String) :=
  chunkGo trackUris.length trackUris

/-! ### Helper lemmas about the generation loop -/

/-- One loop iteration verifies at most one new track. -/
lemma attemptBody_verified_le (env : Env) (vibe : String) (a : ℕ)
    (st : GenState) :
    (attemptBody env vibe a st).verified.length ≤ st.verified.length + 1 := by
  unfold attemptBody
  cases env.suggest a vibe
      (st.verified.map (fun t => Suggestion.mk t.artist t.track))
      st.rejected with
  | none => dsimp only; omega
  | some s =>
    dsimp only
    by_cases h1 : s.track = "" ∨ s.artist = ""
    · rw [if_pos h1]
      omega
    · rw [if_neg h1]
      by_cases h2 : (s.track ++ " by " ++ s.artist) ∈ st.rejected
      · rw [if_pos h2]
        omega
      · rw [if_neg h2]
        cases env.verifyFirst a s with
        | found v => simp
        | needsClarification options =>
          cases hcl : env.clarify a s options with
          | none => simp [hcl]
          | some c =>
            cases hv2 : env.verifySecond a c with
            | found v => simp [hcl, hv2]
            | needsClarification options2 => simp [hcl, hv2]
            | notFound => simp [hcl, hv2]
            | raised => simp [hcl, hv2]
        | notFound => simp
        | raised => simp

/-- The loop never runs its body more often than the fuel allows. -/
lemma runAttempts_iters_le (env : Env) (vibe : String) (n : ℕ) :
    ∀ fuel a st, (runAttempts env vibe n fuel a st).2 ≤ fuel := by
  intro fuel
  induction fuel with
  | zero => intro a st; simp [runAttempts]
  | succ f ih =>
    intro a st
    simp only [runAttempts]
    by_cases h : st.verified.length ≥ n
    · rw [if_pos h]
      omega
    · rw [if_neg h]
      have := ih (a + 1) (attemptBody env vibe a st)
      omega

/-- The break condition keeps the verified list within the requested
count across the loop. -/
lemma runAttempts_verified_le (env : Env) (vibe : String) (n : ℕ) :
    ∀ fuel a st, st.verified.length ≤ n →
      (runAttempts env vibe n fuel a st).1.verified.length ≤ n := by
  intro fuel
  induction fuel with
  | zero => intro a st h; simpa [runAttempts] using h
  | succ f ih =>
    intro a st h
    simp only [runAttempts]
    by_cases hb : st.verified.length ≥ n
    · rw [if_pos hb]
      exact h
    · rw [if_neg hb]
      exact ih (a + 1) (attemptBody env vibe a st)
        (by have := attemptBody_verified_le env vibe a st; omega)

/-- The result of `generate_verified_song_list` never exceeds the
requested count. -/
lemma generate_length_le (env : Env) (vibe : String) (n : ℕ) :
    (generate_verified_song_list env vibe n).length ≤ n := by
  unfold generate_verified_song_list
  rw [List.length_map]
  exact runAttempts_verified_le env vibe n (n * 4) 0 ⟨[], []⟩ (by simp)

/-- In the all-not-found environment the loop state stays in one of two
shapes (nothing verified; possibly one standing rejection), so nothing is
ever verified. -/
lemma runAttempts_allNotFound_verified (vibe : String) (n : ℕ) :
    ∀ fuel a (st : GenState), st.verified = [] →
      (st.rejected = [] ∨ st.rejected = ["t by a"]) →
      (runAttempts allNotFoundEnv vibe n fuel a st).1.verified = [] := by
  intro fuel
  induction fuel with
  | zero => intro a st h1 _; simpa [runAttempts] using h1
  | succ f ih =>
    intro a st h1 h2
    obtain ⟨v, r⟩ := st
    simp only at h1 h2
    subst h1
    simp only [runAttempts]
    by_cases hb : (GenState.mk [] r).verified.length ≥ n
    · rw [if_pos hb]
    · rw [if_neg hb]
      rcases h2 with h2 | h2 <;> subst h2
      · exact ih (a + 1) _ rfl (Or.inr rfl)
      · exact ih (a + 1) _ rfl (Or.inr rfl)

/-- With every Spotify verification failing, the generated list is empty
— and it is an ordinary returned value, not an error. -/
lemma generate_allNotFound (vibe : String) (n : ℕ) :
    generate_verified_song_list allNotFoundEnv vibe n = [] := by
  unfold generate_verified_song_list
  rw [runAttempts_allNotFound_verified vibe n (n * 4) 0 ⟨[], []⟩ rfl
    (Or.inl rfl)]
  rfl

/-! ### Claim theorems for the code in `src/app.py` -/

/-- C3: a result shorter than the requested count — including the empty
result — is returned as a valid list value (the loop warns and returns;
it has no failure path for a short result), never signalled as an error:
the result is always a list of length at most the requested count, and in
an environment where every verification fails the returned value is the
empty list. -/
theorem claim_C3_short_result_returned (env : Env) (vibe : String)
    (n : ℕ) :
    (generate_verified_song_list env vibe n).length ≤ n ∧
    generate_verified_song_list allNotFoundEnv vibe n = [] :=
  ⟨generate_length_le env vibe n, generate_allNotFound vibe n⟩

/-- C4: with a requested count of zero the recommendation operation
returns the empty sequence for every vibe text and exclusion set, and the
song-list generation loop of `src/app.py` likewise returns the empty list
for `num_songs = 0`. -/
theorem claim_C4_count_zero_empty (encode : String → List ℚ)
    (snap : Snapshot) (vibe : String) (exclusionSet : Finset String)
    (env : Env) (vibe2 : String) :
    recommend encode snap vibe exclusionSet 0 = [] ∧
    generate_verified_song_list env vibe2 0 = [] := by
  constructor
  · rw [recommend_eq]
    exact List.take_zero _
  · rfl

/-- C8: for every positive requested song count `n`, the generation loop
executes at most `4 * n` iterations (the `max_attempts` safety bound, so
it terminates) and returns a list of at most `n` track URIs, whatever the
suggestion and verification steps do. -/
theorem claim_C8_loop_bounded (env : Env) (vibe : String) (n : ℕ)
    (hn : 0 < n) :
    (runAttempts env vibe n (n * 4) 0 ⟨[], []⟩).2 ≤ n * 4 ∧
    (generate_verified_song_list env vibe n).length ≤ n :=
  ⟨runAttempts_iters_le env vibe n (n * 4) 0 ⟨[], []⟩,
    generate_length_le env vibe n⟩

/-- Witness for C8 at `n = 1` in the all-not-found environment. -/
theorem claim_C8_witness :
    (runAttempts allNotFoundEnv "v" 1 (1 * 4) 0 ⟨[], []⟩).2 ≤ 1 * 4 ∧
    (generate_verified_song_list allNotFoundEnv "v" 1).length ≤ 1 :=
  claim_C8_loop_bounded allNotFoundEnv "v" 1 (by decide)

/-! ### Helper lemma for the chunking loop -/

/-- With enough fuel, every chunk has at most 100 entries and the chunks
concatenate back to the input in order. -/
lemma chunkGo_spec : ∀ fuel uris, uris.length ≤ fuel →
    (∀ c ∈ chunkGo fuel uris, c.length ≤ 100) ∧
    (chunkGo fuel uris).flatten = uris := by
  intro fuel
  induction fuel with
  | zero =>
    intro uris h
    have huris : uris = [] := List.length_eq_zero.mp (Nat.le_zero.mp h)
    subst huris
    exact ⟨by intro c hc; simp [chunkGo] at hc, by simp [chunkGo]⟩
  | succ f ih =>
    intro uris h
    by_cases he : uris.isEmpty = true
    · have huris : uris = [] := by
        cases uris with
        | nil => rfl
        | cons x xs => simp [List.isEmpty] at he
      subst huris
      exact ⟨by intro c hc; simp [chunkGo] at hc, by simp [chunkGo]⟩
    · have hne : uris ≠ [] := by
        intro hh
        subst hh
        simp at he
      have hlen : 0 < uris.length := List.length_pos.mpr hne
      have hdrop : (uris.drop 100).length ≤ f := by
        rw [List.length_drop]
        omega
      obtain ⟨ihA, ihB⟩ := ih (uris.drop 100) hdrop
      have hstep : chunkGo (f + 1) uris =
          uris.take 100 :: chunkGo f (uris.drop 100) := by
        simp only [chunkGo, if_neg he]
      constructor
      · intro c hc
        rw [hstep] at hc
        rcases List.mem_cons.mp hc with hc' | hc'
        · subst hc'
          rw [List.length_take]
          omega
        · exact ihA c hc'
      · rw [hstep, List.flatten_cons, ihB, List.take_append_drop]

/-- C9: playlist creation partitions the given track URIs into
consecutive chunks of at most 100, and the concatenation of the chunks
passed to the add-items calls equals the original list in its original
order. -/
theorem claim_C9_chunking (trackUris : List String) :
    (∀ c ∈ create_spotify_playlist_chunks trackUris, c.length ≤ 100) ∧
    (create_spotify_playlist_chunks trackUris).flatten = trackUris :=
  chunkGo_spec trackUris.length trackUris (Nat.le_refl _)

/-- Witness for C9 at a concrete one-URI list. -/
theorem claim_C9_witness :
    (["spotify:track:1"] : List String).length ≤ 100 ∧
    (create_spotify_playlist_chunks ["spotify:track:1"]).flatten
      = ["spotify:track:1"] :=
  ⟨(claim_C9_chunking ["spotify:track:1"]).1 ["spotify:track:1"] (by decide),
    (claim_C9_chunking ["spotify:track:1"]).2⟩

/-! ### Helper lemmas about `sanitize_for_spotify` -/

/-- Two adjacent characters are not both whitespace. -/
def noTwoSpaces (a b : Char) : Prop :=
  ¬(isPySpace a = true ∧ isPySpace b = true)

/-- Every whitespace character emitted by the collapse phase is a plain
space. -/
lemma collapseGo_space_mem :
    ∀ (l : List Char) (b : Bool), ∀ c ∈ collapseGo b l,
      isPySpace c = true → c = ' ' := by
  intro l
  induction l with
  | nil => intro b c hc; simp [collapseGo] at hc
  | cons d rest ih =>
    intro b c hc hsp
    by_cases hd : isPySpace d = true
    · cases b with
      | true =>
        rw [show collapseGo true (d :: rest) = collapseGo true rest by
          simp [collapseGo, hd]] at hc
        exact ih true c hc hsp
      | false =>
        rw [show collapseGo false (d :: rest) = ' ' :: collapseGo true rest by
          simp [collapseGo, hd]] at hc
        rcases List.mem_cons.mp hc with hc' | hc'
        · exact hc'
        · exact ih true c hc' hsp
    · rw [show collapseGo b (d :: rest) = d :: collapseGo false rest by
        simp [collapseGo, hd]] at hc
      rcases List.mem_cons.mp hc with hc' | hc'
      · subst hc'
        exact absurd hsp hd
      · exact ih false c hc' hsp

/-- The collapse phase yields no two adjacent whitespace characters, and
when invoked with the flag set its output starts with a non-whitespace
character (the pending run's space has already been emitted). -/
lemma collapseGo_chain :
    ∀ (l : List Char) (b : Bool),
      (collapseGo b l).Chain' noTwoSpaces ∧
      (∀ c, b = true → (collapseGo b l).head? = some c →
        isPySpace c = false) := by
  intro l
  induction l with
  | nil => intro b; exact ⟨List.chain'_nil, by intro c _ hc; simp [collapseGo] at hc⟩
  | cons d rest ih =>
    intro b
    by_cases hd : isPySpace d = true
    · cases b with
      | true =>
        rw [show collapseGo true (d :: rest) = collapseGo true rest by
          simp [collapseGo, hd]]
        exact ⟨(ih true).1, fun c _ hc => (ih true).2 c rfl hc⟩
      | false =>
        rw [show collapseGo false (d :: rest) = ' ' :: collapseGo true rest by
          simp [collapseGo, hd]]
        constructor
        · rw [List.chain'_cons']
          constructor
          · intro y hy
            have hns := (ih true).2 y rfl (Option.mem_def.mp hy)
            intro hcontra
            rw [hns] at hcontra
            exact absurd hcontra.2 (by simp)
          · exact (ih true).1
        · intro c hb
          exact absurd hb (by simp)
    · rw [show collapseGo b (d :: rest) = d :: collapseGo false rest by
        simp [collapseGo, hd]]
      constructor
      · rw [List.chain'_cons']
        constructor
        · intro y _
          intro hcontra
          exact hd hcontra.1
        · exact (ih false).1
      · intro c _ hc
        have hcd : d = c := by simpa using hc
        subst hcd
        simpa using hd

/-- When the head of the input is not whitespace (or the input is empty),
the collapse flag is irrelevant. -/
lemma collapseGo_true_of_head (l : List Char)
    (hh : ∀ c, l.head? = some c → isPySpace c = false) :
    collapseGo true l = collapseGo false l := by
  cases l with
  | nil => rfl
  | cons d rest =>
    have hd : isPySpace d = false := hh d rfl
    simp [collapseGo, hd]

/-- The collapse phase is the identity on strings whose whitespace is
already collapsed (all whitespace is a plain space, never adjacent). -/
lemma collapseGo_fix :
    ∀ l : List Char, (∀ c ∈ l, isPySpace c = true → c = ' ') →
      l.Chain' noTwoSpaces → collapseGo false l = l := by
  intro l
  induction l with
  | nil => intro _ _; rfl
  | cons d rest ih =>
    intro hmem hch
    obtain ⟨hr, hch'⟩ := List.chain'_cons'.mp hch
    by_cases hd : isPySpace d = true
    · have hd' : d = ' ' := hmem d (List.mem_cons_self _ _) hd
      have hh : ∀ c, rest.head? = some c → isPySpace c = false := by
        intro c hc
        have hrc := hr c (Option.mem_def.mpr hc)
        cases hcs : isPySpace c with
        | false => rfl
        | true => exact absurd ⟨hd, hcs⟩ hrc
      have h1 : collapseGo false (d :: rest) = ' ' :: collapseGo true rest := by
        simp [collapseGo, hd]
      rw [h1, collapseGo_true_of_head rest hh,
        ih (fun c hc hcs => hmem c (List.mem_cons_of_mem _ hc) hcs) hch', hd']
    · have h1 : collapseGo false (d :: rest) = d :: collapseGo false rest := by
        simp [collapseGo, hd]
      rw [h1, ih (fun c hc hcs => hmem c (List.mem_cons_of_mem _ hc) hcs) hch']

/-- The head of `dropWhile p` never satisfies `p`. -/
lemma head?_dropWhile_false (p : Char → Bool) :
    ∀ l : List Char, ∀ c, (l.dropWhile p).head? = some c → p c = false := by
  intro l
  induction l with
  | nil => intro c hc; simp at hc
  | cons d rest ih =>
    intro c hc
    by_cases hd : p d = true
    · rw [show (d :: rest).dropWhile p = rest.dropWhile p by
        simp [List.dropWhile_cons, hd]] at hc
      exact ih c hc
    · rw [show (d :: rest).dropWhile p = d :: rest by
        simp [List.dropWhile_cons, hd]] at hc
      have hcd : d = c := by simpa using hc
      subst hcd
      simpa using hd

/-- `dropWhile` is the identity when the head does not satisfy the
predicate. -/
lemma dropWhile_id_of_head (p : Char → Bool) (l : List Char)
    (hh : ∀ c, l.head? = some c → p c = false) : l.dropWhile p = l := by
  cases l with
  | nil => rfl
  | cons d rest =>
    have hd : p d = false := hh d rfl
    simp [List.dropWhile_cons, hd]

/-- The stripped string is a prefix of the front-stripped string. -/
lemma stripWS_front_pref (l : List Char) :
    stripWS l <+: l.dropWhile isPySpace := by
  unfold stripWS
  have hsuf : ((l.dropWhile isPySpace).reverse.dropWhile isPySpace) <:+
      (l.dropWhile isPySpace).reverse := List.dropWhile_suffix _
  have h : ((l.dropWhile isPySpace).reverse.dropWhile isPySpace).reverse <+:
      ((l.dropWhile isPySpace).reverse).reverse :=
    List.reverse_prefix.mpr hsuf
  rwa [List.reverse_reverse] at h

/-- The stripped string is an infix of the original. -/
lemma stripWS_within (l : List Char) : stripWS l <:+: l := by
  obtain ⟨t, ht⟩ := stripWS_front_pref l
  obtain ⟨s, hs⟩ := List.dropWhile_suffix (l := l) (p := isPySpace)
  exact ⟨s, t, by rw [List.append_assoc, ht, hs]⟩

/-- The stripped string does not start with whitespace. -/
lemma stripWS_head (l : List Char) :
    ∀ c, (stripWS l).head? = some c → isPySpace c = false := by
  intro c hc
  obtain ⟨t, ht⟩ := stripWS_front_pref l
  have hx : (l.dropWhile isPySpace).head? = some c := by
    rw [← ht, List.head?_append, hc]
    rfl
  exact head?_dropWhile_false isPySpace l c hx

/-- The stripped string does not end with whitespace. -/
lemma stripWS_getLast (l : List Char) :
    ∀ c, (stripWS l).getLast? = some c → isPySpace c = false := by
  intro c hc
  have hy : ((l.dropWhile isPySpace).reverse.dropWhile isPySpace).head?
      = some c := by
    have h1 := List.head?_reverse
      ((l.dropWhile isPySpace).reverse.dropWhile isPySpace).reverse
    rw [List.reverse_reverse] at h1
    rw [h1]
    exact hc
  exact head?_dropWhile_false isPySpace _ c hy

/-- Stripping is the identity on a string with non-whitespace head and
last character. -/
lemma stripWS_fix (l : List Char)
    (hh : ∀ c, l.head? = some c → isPySpace c = false)
    (hl : ∀ c, l.getLast? = some c → isPySpace c = false) :
    stripWS l = l := by
  unfold stripWS
  rw [dropWhile_id_of_head isPySpace l hh]
  have hrev : ∀ c, l.reverse.head? = some c → isPySpace c = false := by
    intro c hc
    rw [List.head?_reverse] at hc
    exact hl c hc
  rw [dropWhile_id_of_head isPySpace l.reverse hrev, List.reverse_reverse]

/-- Unfolding equation for nonempty input. -/
lemma sanitize_of_ne (s : List Char) (h : s ≠ []) :
    sanitize_for_spotify s = stripWS (collapseWS s) := by
  unfold sanitize_for_spotify
  rw [if_neg h]

/-- The sanitized string never starts with whitespace. -/
lemma sanitize_head (s : List Char) :
    ∀ c, (sanitize_for_spotify s).head? = some c → isPySpace c = false := by
  intro c hc
  by_cases hs : s = []
  · rw [hs] at hc
    simp [sanitize_for_spotify] at hc
  · rw [sanitize_of_ne s hs] at hc
    exact stripWS_head _ c hc

/-- The sanitized string never ends with whitespace. -/
lemma sanitize_getLast (s : List Char) :
    ∀ c, (sanitize_for_spotify s).getLast? = some c →
      isPySpace c = false := by
  intro c hc
  by_cases hs : s = []
  · rw [hs] at hc
    simp [sanitize_for_spotify] at hc
  · rw [sanitize_of_ne s hs] at hc
    exact stripWS_getLast _ c hc

/-- Every whitespace character of the sanitized string is a plain space. -/
lemma sanitize_mem_space (s : List Char) :
    ∀ c ∈ sanitize_for_spotify s, isPySpace c = true → c = ' ' := by
  intro c hc hsp
  by_cases hs : s = []
  · rw [hs] at hc
    simp [sanitize_for_spotify] at hc
  · rw [sanitize_of_ne s hs] at hc
    have hinf := stripWS_within (collapseWS s)
    have hsub := hinf.sublist.subset hc
    exact collapseGo_space_mem s false c hsub hsp

/-- The sanitized string has no two adjacent whitespace characters. -/
lemma sanitize_chain (s : List Char) :
    (sanitize_for_spotify s).Chain' noTwoSpaces := by
  by_cases hs : s = []
  · rw [hs]
    exact List.chain'_nil
  · rw [sanitize_of_ne s hs]
    exact List.Chain'.infix (collapseGo_chain s false).1
      (stripWS_within (collapseWS s))

/-- Sanitization is idempotent. -/
lemma sanitize_idem (s : List Char) :
    sanitize_for_spotify (sanitize_for_spotify s)
      = sanitize_for_spotify s := by
  by_cases hr : sanitize_for_spotify s = []
  · rw [hr]
    rfl
  · rw [sanitize_of_ne _ hr]
    have h1 : collapseWS (sanitize_for_spotify s) = sanitize_for_spotify s :=
      collapseGo_fix _ (sanitize_mem_space s) (sanitize_chain s)
    rw [h1, stripWS_fix _ (sanitize_head s) (sanitize_getLast s)]

/-- C10: sanitization returns the empty string on empty (falsy) input;
otherwise its output has no leading or trailing whitespace, every
whitespace character it contains is a single plain space with no two
adjacent (each maximal whitespace run of the input became one space), and
the function is idempotent. -/
theorem claim_C10_sanitize_normal_form (s : List Char) :
    sanitize_for_spotify [] = [] ∧
    (∀ c, (sanitize_for_spotify s).head? = some c → isPySpace c = false) ∧
    (∀ c, (sanitize_for_spotify s).getLast? = some c →
      isPySpace c = false) ∧
    (∀ c ∈ sanitize_for_spotify s, isPySpace c = true → c = ' ') ∧
    (sanitize_for_spotify s).Chain' noTwoSpaces ∧
    sanitize_for_spotify (sanitize_for_spotify s) = sanitize_for_spotify s :=
  ⟨rfl, sanitize_head s, sanitize_getLast s, sanitize_mem_space s,
    sanitize_chain s, sanitize_idem s⟩

/-- Witness for C10 on the concrete input `" a  b "`. -/
theorem claim_C10_witness :
    isPySpace 'a' = false ∧ isPySpace 'b' = false ∧ (' ' : Char) = ' ' ∧
    sanitize_for_spotify
        (sanitize_for_spotify [' ', 'a', ' ', ' ', 'b', ' '])
      = sanitize_for_spotify [' ', 'a', ' ', ' ', 'b', ' '] :=
  ⟨(claim_C10_sanitize_normal_form [' ', 'a', ' ', ' ', 'b', ' ']).2.1
      'a' (by decide),
    (claim_C10_sanitize_normal_form [' ', 'a', ' ', ' ', 'b', ' ']).2.2.1
      'b' (by decide),
    (claim_C10_sanitize_normal_form [' ', 'a', ' ', ' ', 'b', ' ']).2.2.2.1
      ' ' (by decide) (by decide),
    (claim_C10_sanitize_normal_form
      [' ', 'a', ' ', ' ', 'b', ' ']).2.2.2.2.2⟩

end VibeList
